import Mathlib

/-!
Shallow embedding of the plant-disease chatbot's retrieval core:

* `RetrievalEngine.retrieve` and its helper methods from `recommendation.py`
  (hybrid TF-IDF + sentence-embedding ranking with adaptive blending,
  fitted-state validation and self-healing rebuild of the lexical index);
* `build_tfidf` from `data_processing.py` (lexical index build pass);
* `_calibrate_confidence` from `image_classifier_fixed.py` (top-k
  re-normalization of softmax probabilities).

Modelling conventions: floating point numbers become `ℚ` (the algorithms use
only field operations and comparisons); numpy arrays become `List ℚ`;
`np.argsort` is modelled as a stable ascending sort of the index range (ties
in increasing index order, which is what numpy produces on the insertion-sort
path used for the short score vectors at issue, and which matches the spec's
"stable sort" reading); Python's `arr[-k:]` slice is modelled by `pyTail`,
including its `k = 0` behaviour of returning the whole array.  The two
similarity backends (the fitted sklearn vectorizer with its document matrix,
and the sentence-embedding model with its cached vectors) are modelled as
opaque score functions `String → List ℚ`, the exact shape in which
`retrieve` consumes them; an sklearn fit outcome is an `Option` value.
-/

namespace ChatBotAI

/-! ### numpy / Python primitives -/

/-- The epsilon `1e-9` added to the min-max denominator in `retrieve`. -/
def eps : ℚ := 1 / 1000000000

/-- `np.zeros(n)` (as produced by the disabled-index branches). -/
def zeros (n : ℕ) : List ℚ := List.replicate n 0

/-- The comparison used to model `np.argsort`: ascending by score, exact
ties in ascending index order (stable sort semantics). -/
def keyLe (c : List ℚ) (i j : ℕ) : Prop :=
  c.getD i 0 < c.getD j 0 ∨ (c.getD i 0 = c.getD j 0 ∧ i ≤ j)

instance (c : List ℚ) : DecidableRel (keyLe c) := fun _ _ => by
  unfold keyLe; infer_instance

instance (c : List ℚ) : IsTotal ℕ (keyLe c) := by
  constructor
  intro i j
  rcases lt_trichotomy (c.getD i 0) (c.getD j 0) with h | h | h
  · exact Or.inl (Or.inl h)
  · rcases Nat.le_total i j with hij | hij
    · exact Or.inl (Or.inr ⟨h, hij⟩)
    · exact Or.inr (Or.inr ⟨h.symm, hij⟩)
  · exact Or.inr (Or.inl h)

instance (c : List ℚ) : IsTrans ℕ (keyLe c) := by
  constructor
  rintro i j k (h1 | ⟨h1, h1'⟩) (h2 | ⟨h2, h2'⟩)
  · exact Or.inl (h1.trans h2)
  · exact Or.inl (h2 ▸ h1)
  · exact Or.inl (h1 ▸ h2)
  · exact Or.inr ⟨h1.trans h2, h1'.trans h2'⟩

/-- `np.argsort(c)`: the index range of `c` sorted ascending by score,
ties kept in original (ascending-index) order. -/
def argsort (c : List ℚ) : List ℕ :=
  List.insertionSort (keyLe c) (List.range c.length)

/-- Python's `l[-k:]`: the last `k` elements — except that `l[-0:]` is the
whole list (`-0 == 0`, so the slice degenerates to `l[0:]`). -/
def pyTail (k : ℕ) (l : List α) : List α :=
  if k = 0 then l else l.drop (l.length - k)

/-- `np.min` over a nonempty array (0 on the empty array, which the code
never reaches). -/
def minD : List ℚ → ℚ
  | [] => 0
  | x :: xs => xs.foldl min x

/-- `np.max` over a nonempty array (0 on the empty array). -/
def maxD : List ℚ → ℚ
  | [] => 0
  | x :: xs => xs.foldl max x

/-- The `norm` closure inside `retrieve`:
`(arr - arr.min()) / (arr.max() - arr.min() + 1e-9)`. -/
def normArr (l : List ℚ) : List ℚ :=
  l.map (fun x => (x - minD l) / (maxD l - minD l + eps))

/-! ### Data model -/

/-- One row of the Q&A DataFrame, with the columns `retrieve` reads. -/
structure Row where
  plant : String
  disease : String
  question : String
  answer : String
  question_type : String
  image_path : String
deriving Repr, DecidableEq, Inhabited

/-- One element of the result list built by `retrieve` (the dict with the
row's fields plus the combined `score`). -/
structure RResult where
  plant : String
  disease : String
  question : String
  answer : String
  question_type : String
  image_path : String
  score : ℚ
deriving Repr, DecidableEq, Inhabited

/-- The result dict built from a row and a score. -/
def mkRResult (r : Row) (score : ℚ) : RResult :=
  ⟨r.plant, r.disease, r.question, r.answer, r.question_type, r.image_path, score⟩

/-- The lexical index pair (`tfidf_vectorizer`, `tfidf_matrix`) held by the
engine: a fitted-state flag (the `idf_` attribute checked by
`_validate_tfidf`) and the similarity function
`query ↦ cosine_similarity(vectorizer.transform([query]), tfidf_matrix)`. -/
structure TfidfIdx where
  fitted : Bool
  sim : String → List ℚ

/-- The mutable state of a `RetrievalEngine` instance: the DataFrame, whether
it carries the `Combined` column (needed by `_rebuild_tfidf`), the optional
lexical index and the optional embedding backend (`embed_model` together with
the cached `embeddings`, as the similarity function
`query ↦ cosine_similarity(embed_model.encode([query]), embeddings)`). -/
structure EngineState where
  df : List Row
  hasCombined : Bool
  tfidf : Option TfidfIdx
  embed : Option (String → List ℚ)

/-! ### `_rebuild_tfidf` and `_tfidf_scores` -/

/-- The lexical index `_rebuild_tfidf` ends up holding.  `fitEnv` is the
outcome of `TfidfVectorizer(...).fit_transform(df["Combined"])`: `none` when
the fit raises, otherwise the produced index (whose `fitted` flag is what
`_validate_tfidf` reports afterwards).  A missing `Combined` column, a fit
exception, or a post-fit validation failure (the raised `RuntimeError`,
caught by the enclosing `except`) all leave the index disabled (`none`). -/
def rebuildResult (s : EngineState) (fitEnv : Option TfidfIdx) : Option TfidfIdx :=
  if s.hasCombined = false then none
  else
    match fitEnv with
    | none => none
    | some v => if v.fitted then some v else none

/-- `RetrievalEngine._rebuild_tfidf`: replace the lexical index by the
rebuild outcome (everything else, in particular `df` and the embedding
index, is untouched). -/
def rebuild_tfidf (s : EngineState) (fitEnv : Option TfidfIdx) : EngineState :=
  { s with tfidf := rebuildResult s fitEnv }

/-- `RetrievalEngine._tfidf_scores`: zeros when the index is absent;
otherwise re-validate the fitted state, rebuilding once if it was lost;
transform-and-score with whatever index survives, falling back to zeros
(the `NotFittedError` catch) if it is still unfitted. Returns the scores
together with the possibly-updated engine state. -/
def tfidf_scores (s : EngineState) (fitEnv : Option TfidfIdx) (q : String) :
    List ℚ × EngineState :=
  match s.tfidf with
  | none => (zeros s.df.length, s)
  | some v =>
    if v.fitted then (v.sim q, s)
    else
      match rebuildResult s fitEnv with
      | none => (zeros s.df.length, rebuild_tfidf s fitEnv)
      | some v2 =>
        if v2.fitted then (v2.sim q, rebuild_tfidf s fitEnv)
        else (zeros s.df.length, rebuild_tfidf s fitEnv)

/-- `RetrievalEngine._embed_scores`: zeros when the embedding backend is
absent, otherwise the cosine-similarity vector for the query. -/
def embed_scores (s : EngineState) (q : String) : List ℚ :=
  match s.embed with
  | none => zeros s.df.length
  | some f => f q

/-! ### `retrieve` -/

/-- The TF-IDF similarity vector computed at the top of `retrieve`. -/
def tsOf (s : EngineState) (fitEnv : Option TfidfIdx) (q : String) : List ℚ :=
  (tfidf_scores s fitEnv q).1

/-- The engine state after the `_tfidf_scores` call inside `retrieve`
(the only state mutation a `retrieve` call can perform). -/
def stateAfter (s : EngineState) (fitEnv : Option TfidfIdx) (q : String) : EngineState :=
  (tfidf_scores s fitEnv q).2

/-- The embedding similarity vector computed inside `retrieve`. -/
def esOf (s : EngineState) (fitEnv : Option TfidfIdx) (q : String) : List ℚ :=
  embed_scores (stateAfter s fitEnv q) q

/-- `tfidf_active`: the vectorizer survived `_tfidf_scores` and some
similarity is non-zero. -/
def tActiveOf (s : EngineState) (fitEnv : Option TfidfIdx) (q : String) : Bool :=
  (stateAfter s fitEnv q).tfidf.isSome
    && (tsOf s fitEnv q).any (fun x => decide (x ≠ 0))

/-- `embed_active`: the embedding backend exists and some similarity is
non-zero. -/
def eActiveOf (s : EngineState) (fitEnv : Option TfidfIdx) (q : String) : Bool :=
  (stateAfter s fitEnv q).embed.isSome
    && (esOf s fitEnv q).any (fun x => decide (x ≠ 0))

/-- `effective_alpha`: 0 when the lexical signal is inactive, 1 when the
embedding signal is inactive, the caller's `alpha` otherwise. -/
def effAlphaOf (s : EngineState) (fitEnv : Option TfidfIdx) (q : String) (alpha : ℚ) : ℚ :=
  if tActiveOf s fitEnv q = false then 0
  else if eActiveOf s fitEnv q = false then 1
  else alpha

/-- The `combined` score vector:
`effective_alpha * norm(tfidf_s) + (1 - effective_alpha) * norm(embed_s)`. -/
def combinedOf (s : EngineState) (fitEnv : Option TfidfIdx) (q : String) (alpha : ℚ) :
    List ℚ :=
  List.zipWith
    (fun t e => effAlphaOf s fitEnv q alpha * t
      + (1 - effAlphaOf s fitEnv q alpha) * e)
    (normArr (tsOf s fitEnv q)) (normArr (esOf s fitEnv q))

/-- `np.argsort(c)[-top_k:][::-1]`, with each selected index paired with its
score `c[i]` — the shape shared by `retrieve`'s ranking branch and by
`_calibrate_confidence`'s top-k selection. -/
def topPicks (c : List ℚ) (topK : ℕ) : List (ℕ × ℚ) :=
  ((pyTail topK (argsort c)).reverse).map (fun i => (i, c.getD i 0))

/-- The index/score pairs `retrieve` returns, before each index is resolved
to its DataFrame row.  Fallback branch: both signals inactive — the first
`min(top_k, len(df))` rows with score 0.0.  Ranking branch:
`np.argsort(combined)[-top_k:][::-1]`, each index paired with its combined
score. -/
def retrievePicks (s : EngineState) (fitEnv : Option TfidfIdx) (q : String)
    (topK : ℕ) (alpha : ℚ) : List (ℕ × ℚ) :=
  if tActiveOf s fitEnv q = false ∧ eActiveOf s fitEnv q = false then
    (List.range (min topK (stateAfter s fitEnv q).df.length)).map (fun i => (i, (0 : ℚ)))
  else
    topPicks (combinedOf s fitEnv q alpha) topK

/-- `RetrievalEngine.retrieve`: the ranked result dicts plus the engine
state left behind by the call. -/
def retrieve (s : EngineState) (fitEnv : Option TfidfIdx) (q : String)
    (topK : ℕ) (alpha : ℚ) : List RResult × EngineState :=
  ((retrievePicks s fitEnv q topK alpha).map
      (fun p => mkRResult ((stateAfter s fitEnv q).df.getD p.1 default) p.2),
    stateAfter s fitEnv q)

/-! ### `build_tfidf` (data_processing.py) -/

/-- The DataFrame as `build_tfidf` sees it: a row count, whether the
`Combined` column exists, and that column's values (read only when it
exists). -/
structure FrameModel where
  nrows : ℕ
  hasCombined : Bool
  combined : List String

/-- Python truthiness of `t and t.strip()`: the string has at least one
non-whitespace character. -/
def hasContent (t : String) : Bool :=
  t.toList.any (fun ch => !ch.isWhitespace)

/-- What a `build_tfidf` pass does: skip (an early `return`, nothing
persisted), raise (the post-fit validation `RuntimeError`, nothing
persisted), or persist a fitted index whose document-term matrix has the
recorded number of rows. -/
inductive BuildOutcome
  | skipped : BuildOutcome
  | raised : BuildOutcome
  | persisted : ℕ → BuildOutcome
deriving Repr, DecidableEq

/-- `build_tfidf(df)` from `data_processing.py`.  `fitOk` models whether
`check_is_fitted(vectorizer, ["idf_"])` succeeds after
`vectorizer.fit_transform(corpus)`.  Note the source fits on `corpus`
(the raw column), not on `corpus_clean`; `corpus_clean` is only used for
the emptiness guard. -/
def build_tfidf (df : Option FrameModel) (fitOk : List String → Bool) : BuildOutcome :=
  match df with
  | none => BuildOutcome.skipped
  | some d =>
    if d.nrows = 0 then BuildOutcome.skipped
    else if d.hasCombined = false then BuildOutcome.skipped
    else if (d.combined.filter hasContent).length = 0 then BuildOutcome.skipped
    else if fitOk d.combined then BuildOutcome.persisted d.combined.length
    else BuildOutcome.raised

/-! ### `_calibrate_confidence` (image_classifier_fixed.py) -/

/-- The `top_indices` of `_calibrate_confidence`:
`np.argsort(raw_probs)[-top_k:][::-1]`. -/
def calibTopIndices (rawProbs : List ℚ) (topK : ℕ) : List ℕ :=
  (pyTail topK (argsort rawProbs)).reverse

/-- The `top_probs` of `_calibrate_confidence`: `raw_probs[top_indices]`. -/
def calibTopProbs (rawProbs : List ℚ) (topK : ℕ) : List ℚ :=
  (calibTopIndices rawProbs topK).map (fun i => rawProbs.getD i 0)

/-- `_calibrate_confidence(raw_probs, top_k)`: take
`np.argsort(raw_probs)[-top_k:][::-1]`, gather the corresponding raw
probabilities, and re-normalize them to sum to 1 within the selected subset
(skipping the division when the subset sums to 0). -/
def calibrate_confidence (rawProbs : List ℚ) (topK : ℕ) : List ℕ × List ℚ :=
  if 0 < (calibTopProbs rawProbs topK).sum then
    (calibTopIndices rawProbs topK,
      (calibTopProbs rawProbs topK).map
        (fun p => p / (calibTopProbs rawProbs topK).sum))
  else
    (calibTopIndices rawProbs topK, calibTopProbs rawProbs topK)

/-! ### Helper lemmas: argsort -/

theorem argsort_sorted (c : List ℚ) : (argsort c).Sorted (keyLe c) :=
  List.sorted_insertionSort _ _

theorem argsort_perm (c : List ℚ) : List.Perm (argsort c) (List.range c.length) :=
  List.perm_insertionSort _ _

theorem argsort_nodup (c : List ℚ) : (argsort c).Nodup :=
  (argsort_perm c).nodup_iff.mpr (List.nodup_range c.length)

theorem argsort_length (c : List ℚ) : (argsort c).length = c.length := by
  rw [(argsort_perm c).length_eq, List.length_range]

theorem mem_argsort {c : List ℚ} {i : ℕ} : i ∈ argsort c ↔ i < c.length := by
  rw [(argsort_perm c).mem_iff, List.mem_range]

theorem argsort_ne_nil {c : List ℚ} (h : c ≠ []) : argsort c ≠ [] := by
  intro hnil
  apply h
  have hl := argsort_length c
  rw [hnil] at hl
  exact List.length_eq_zero.mp hl.symm

/-- In a list sorted by `keyLe c`, every member is `keyLe`-below the last
element. -/
theorem sorted_getLast_max {c : List ℚ} {l : List ℕ} (h : l.Sorted (keyLe c))
    {i : ℕ} (hi : i ∈ l) (hne : l ≠ []) : keyLe c i (l.getLast hne) := by
  rcases List.eq_nil_or_concat l with rfl | ⟨l2, a, rfl⟩
  · simp at hi
  · simp only [List.concat_eq_append] at h hi ⊢
    rw [List.getLast_append]
    have hsplit := List.pairwise_append.mp h
    rw [List.mem_append] at hi
    rcases hi with hi | hi
    · exact hsplit.2.2 i hi a (List.mem_singleton_self a)
    · rw [List.mem_singleton] at hi
      subst hi
      exact Or.inr ⟨rfl, le_refl _⟩

/-! ### Helper lemmas: pyTail -/

theorem pyTail_sublist (k : ℕ) (l : List α) : (pyTail k l).Sublist l := by
  unfold pyTail
  split
  · exact List.Sublist.refl l
  · exact List.drop_sublist _ l

theorem pyTail_length_of_ne_zero (k : ℕ) (l : List α) (hk : k ≠ 0) :
    (pyTail k l).length = min k l.length := by
  unfold pyTail
  rw [if_neg hk, List.length_drop]
  omega

theorem pyTail_eq_of_le (k : ℕ) (l : List α) (hk : l.length ≤ k) : pyTail k l = l := by
  unfold pyTail
  split
  · rfl
  · rw [Nat.sub_eq_zero_of_le hk, List.drop_zero]

theorem pyTail_getLast? (k : ℕ) (l : List α) (h : pyTail k l ≠ []) :
    (pyTail k l).getLast? = l.getLast? := by
  by_cases hk : k = 0
  · rw [hk]
    rfl
  · rw [pyTail, if_neg hk] at h ⊢
    conv_rhs => rw [← List.take_append_drop (l.length - k) l]
    exact (List.getLast?_append_of_ne_nil _ h).symm

/-! ### Helper lemmas: min/max/normArr -/

theorem foldl_min_le_init (xs : List ℚ) (a : ℚ) : xs.foldl min a ≤ a := by
  induction xs generalizing a with
  | nil => exact le_refl a
  | cons y ys ih => exact le_trans (ih (min a y)) (min_le_left a y)

theorem foldl_min_le_mem (xs : List ℚ) (a : ℚ) {x : ℚ} (hx : x ∈ xs) :
    xs.foldl min a ≤ x := by
  induction xs generalizing a with
  | nil => cases hx
  | cons y ys ih =>
    rcases List.mem_cons.mp hx with rfl | hx'
    · exact le_trans (foldl_min_le_init ys (min a x)) (min_le_right a x)
    · exact ih _ hx'

theorem init_le_foldl_max (xs : List ℚ) (a : ℚ) : a ≤ xs.foldl max a := by
  induction xs generalizing a with
  | nil => exact le_refl a
  | cons y ys ih => exact le_trans (le_max_left a y) (ih (max a y))

theorem mem_le_foldl_max (xs : List ℚ) (a : ℚ) {x : ℚ} (hx : x ∈ xs) :
    x ≤ xs.foldl max a := by
  induction xs generalizing a with
  | nil => cases hx
  | cons y ys ih =>
    rcases List.mem_cons.mp hx with rfl | hx'
    · exact le_trans (le_max_right a x) (init_le_foldl_max ys (max a x))
    · exact ih _ hx'

theorem minD_le_of_mem {l : List ℚ} {x : ℚ} (h : x ∈ l) : minD l ≤ x := by
  cases l with
  | nil => cases h
  | cons y ys =>
    rcases List.mem_cons.mp h with rfl | h'
    · exact foldl_min_le_init ys x
    · exact foldl_min_le_mem ys y h'

theorem le_maxD_of_mem {l : List ℚ} {x : ℚ} (h : x ∈ l) : x ≤ maxD l := by
  cases l with
  | nil => cases h
  | cons y ys =>
    rcases List.mem_cons.mp h with rfl | h'
    · exact init_le_foldl_max ys x
    · exact mem_le_foldl_max ys y h'

theorem foldl_max_le {xs : List ℚ} {a b : ℚ} (ha : a ≤ b) (h : ∀ x ∈ xs, x ≤ b) :
    xs.foldl max a ≤ b := by
  induction xs generalizing a with
  | nil => exact ha
  | cons y ys ih =>
    exact ih (max_le ha (h y (List.mem_cons_self y ys)))
      (fun x hx => h x (List.mem_cons_of_mem y hx))

theorem maxD_le_of_forall {l : List ℚ} {b : ℚ} (hne : l ≠ [])
    (h : ∀ x ∈ l, x ≤ b) : maxD l ≤ b := by
  cases l with
  | nil => exact absurd rfl hne
  | cons y ys =>
    exact foldl_max_le (h y (List.mem_cons_self y ys))
      (fun x hx => h x (List.mem_cons_of_mem y hx))

theorem minD_le_maxD {l : List ℚ} (h : l ≠ []) : minD l ≤ maxD l := by
  cases l with
  | nil => exact absurd rfl h
  | cons y ys =>
    exact le_trans (foldl_min_le_init ys y)
      (init_le_foldl_max ys y)

theorem eps_pos : (0 : ℚ) < eps := by norm_num [eps]

theorem normDenom_pos {l : List ℚ} (h : l ≠ []) : 0 < maxD l - minD l + eps := by
  have h1 := minD_le_maxD h
  have h2 := eps_pos
  linarith

theorem normArr_length (l : List ℚ) : (normArr l).length = l.length :=
  List.length_map _ _

theorem getD_mem {l : List ℚ} {i : ℕ} (h : i < l.length) : l.getD i 0 ∈ l := by
  rw [List.getD_eq_getElem?_getD, List.getElem?_eq_getElem h]
  exact List.getElem_mem h

theorem normArr_getD {l : List ℚ} {i : ℕ} (h : i < l.length) :
    (normArr l).getD i 0 = (l.getD i 0 - minD l) / (maxD l - minD l + eps) := by
  have h2 : i < (normArr l).length := by rw [normArr_length]; exact h
  rw [List.getD_eq_getElem?_getD, List.getElem?_eq_getElem h2,
    List.getD_eq_getElem?_getD, List.getElem?_eq_getElem h]
  simp [normArr]

theorem zipWith_getD (f : ℚ → ℚ → ℚ) (as bs : List ℚ) {i : ℕ}
    (ha : i < as.length) (hb : i < bs.length) :
    (List.zipWith f as bs).getD i 0 = f (as.getD i 0) (bs.getD i 0) := by
  have hz : i < (List.zipWith f as bs).length := by
    rw [List.length_zipWith]
    exact lt_min ha hb
  rw [List.getD_eq_getElem?_getD, List.getElem?_eq_getElem hz,
    List.getD_eq_getElem?_getD, List.getElem?_eq_getElem ha,
    List.getD_eq_getElem?_getD, List.getElem?_eq_getElem hb]
  exact List.getElem_zipWith

/-- Reading a list back through `getD` over its index range reproduces it. -/
theorem map_getD_range (l : List ℚ) :
    (List.range l.length).map (fun i => l.getD i 0) = l := by
  apply List.ext_getElem
  · simp
  · intro i h1 h2
    simp only [List.getElem_map, List.getElem_range]
    rw [List.getD_eq_getElem?_getD, List.getElem?_eq_getElem h2]
    rfl

/-- Summing `getD` over any permutation of the index range gives the list
sum. -/
theorem sum_map_getD_perm {c : List ℚ} {l : List ℕ}
    (h : List.Perm l (List.range c.length)) :
    (l.map (fun i => c.getD i 0)).sum = c.sum := by
  have h2 : (l.map (fun i => c.getD i 0)).sum
      = ((List.range c.length).map (fun i => c.getD i 0)).sum :=
    (h.map _).sum_eq
  rw [h2, map_getD_range]

theorem sum_pos_of_forall_pos {l : List ℚ} (hne : l ≠ [])
    (hpos : ∀ x ∈ l, 0 < x) : 0 < l.sum := by
  cases l with
  | nil => exact absurd rfl hne
  | cons x xs =>
    have hxs : 0 ≤ xs.sum :=
      List.sum_nonneg (fun y hy => (hpos y (List.mem_cons_of_mem x hy)).le)
    have hx := hpos x (List.mem_cons_self x xs)
    simp only [List.sum_cons]
    linarith

/-! ### Helper lemmas: engine state plumbing -/

theorem rebuildResult_fitted {s : EngineState} {fitEnv : Option TfidfIdx}
    {v2 : TfidfIdx} (h : rebuildResult s fitEnv = some v2) : v2.fitted = true := by
  unfold rebuildResult at h
  by_cases hc : s.hasCombined = false
  · rw [if_pos hc] at h
    cases h
  · rw [if_neg hc] at h
    cases fitEnv with
    | none => cases h
    | some v =>
      by_cases hv : v.fitted
      · simp only [hv, if_true] at h
        cases h
        exact hv
      · simp [hv] at h

theorem tfidf_scores_of_none (s : EngineState) (fitEnv : Option TfidfIdx)
    (q : String) (h : s.tfidf = none) :
    tfidf_scores s fitEnv q = (zeros s.df.length, s) := by
  unfold tfidf_scores
  rw [h]

theorem tfidf_scores_of_fitted (s : EngineState) (fitEnv : Option TfidfIdx)
    (q : String) {v : TfidfIdx} (h : s.tfidf = some v) (hf : v.fitted = true) :
    tfidf_scores s fitEnv q = (v.sim q, s) := by
  unfold tfidf_scores
  rw [h]
  simp [hf]

theorem tfidf_scores_of_rebuild_fail (s : EngineState) (fitEnv : Option TfidfIdx)
    (q : String) {v : TfidfIdx} (h : s.tfidf = some v) (hf : v.fitted = false)
    (hr : rebuildResult s fitEnv = none) :
    tfidf_scores s fitEnv q = (zeros s.df.length, rebuild_tfidf s fitEnv) := by
  unfold tfidf_scores
  rw [h]
  simp only [hf, Bool.false_eq_true, if_false]
  rw [hr]

theorem tfidf_scores_of_rebuild_ok (s : EngineState) (fitEnv : Option TfidfIdx)
    (q : String) {v v2 : TfidfIdx} (h : s.tfidf = some v) (hf : v.fitted = false)
    (hr : rebuildResult s fitEnv = some v2) :
    tfidf_scores s fitEnv q = (v2.sim q, rebuild_tfidf s fitEnv) := by
  unfold tfidf_scores
  rw [h]
  simp only [hf, Bool.false_eq_true, if_false]
  rw [hr]
  simp [rebuildResult_fitted hr]

theorem stateAfter_df (s : EngineState) (fitEnv : Option TfidfIdx) (q : String) :
    (stateAfter s fitEnv q).df = s.df := by
  unfold stateAfter tfidf_scores
  cases s.tfidf with
  | none => rfl
  | some v =>
    by_cases hf : v.fitted
    · simp only [hf, if_true]
    · simp only [hf, Bool.false_eq_true, if_false]
      cases rebuildResult s fitEnv with
      | none => rfl
      | some v2 =>
        by_cases hv : v2.fitted <;> simp [hv, rebuild_tfidf]

theorem stateAfter_embed (s : EngineState) (fitEnv : Option TfidfIdx) (q : String) :
    (stateAfter s fitEnv q).embed = s.embed := by
  unfold stateAfter tfidf_scores
  cases s.tfidf with
  | none => rfl
  | some v =>
    by_cases hf : v.fitted
    · simp only [hf, if_true]
    · simp only [hf, Bool.false_eq_true, if_false]
      cases rebuildResult s fitEnv with
      | none => rfl
      | some v2 =>
        by_cases hv : v2.fitted <;> simp [hv, rebuild_tfidf]

/-- If the lexical index did not survive `_tfidf_scores`, the scores it
returned were the zero vector. -/
theorem tsOf_of_stateAfter_none (s : EngineState) (fitEnv : Option TfidfIdx)
    (q : String) (h : (stateAfter s fitEnv q).tfidf = none) :
    tsOf s fitEnv q = zeros s.df.length := by
  unfold tsOf
  unfold stateAfter at h
  cases htf : s.tfidf with
  | none => rw [tfidf_scores_of_none s fitEnv q htf]
  | some v =>
    by_cases hf : v.fitted
    · rw [tfidf_scores_of_fitted s fitEnv q htf hf] at h ⊢
      rw [htf] at h
      cases h
    · have hf' : v.fitted = false := by
        cases hb : v.fitted
        · rfl
        · exact absurd hb hf
      cases hr : rebuildResult s fitEnv with
      | none => rw [tfidf_scores_of_rebuild_fail s fitEnv q htf hf' hr]
      | some v2 =>
        rw [tfidf_scores_of_rebuild_ok s fitEnv q htf hf' hr] at h ⊢
        simp only [rebuild_tfidf, hr] at h
        cases h

/-- If the embedding backend is absent, `_embed_scores` returns zeros. -/
theorem esOf_of_embed_none (s : EngineState) (fitEnv : Option TfidfIdx)
    (q : String) (h : s.embed = none) :
    esOf s fitEnv q = zeros s.df.length := by
  unfold esOf embed_scores
  rw [stateAfter_embed, h, stateAfter_df]

/-! ### Helper lemmas: the top-k selection -/

theorem pyTail_eq_drop (k : ℕ) (l : List α) :
    pyTail k l = l.drop (if k = 0 then 0 else l.length - k) := by
  by_cases hk : k = 0 <;> simp [pyTail, hk]

theorem topPicks_map_fst (c : List ℚ) (topK : ℕ) :
    (topPicks c topK).map Prod.fst = (pyTail topK (argsort c)).reverse := by
  unfold topPicks
  rw [List.map_map]
  exact List.map_id _

theorem topPicks_mem {c : List ℚ} {topK : ℕ} {p : ℕ × ℚ}
    (hp : p ∈ topPicks c topK) :
    p.1 ∈ (pyTail topK (argsort c)).reverse ∧ p.2 = c.getD p.1 0 := by
  unfold topPicks at hp
  rcases List.mem_map.mp hp with ⟨i, hi, rfl⟩
  exact ⟨hi, rfl⟩

theorem topPicks_idx_lt {c : List ℚ} {topK : ℕ} {p : ℕ × ℚ}
    (hp : p ∈ topPicks c topK) : p.1 < c.length := by
  have h1 := (topPicks_mem hp).1
  rw [List.mem_reverse] at h1
  exact mem_argsort.mp ((pyTail_sublist topK (argsort c)).mem h1)

theorem topPicks_score {c : List ℚ} {topK : ℕ} {p : ℕ × ℚ}
    (hp : p ∈ topPicks c topK) : p.2 = c.getD p.1 0 :=
  (topPicks_mem hp).2

/-- The selected indices are pairwise distinct. -/
theorem topPicks_nodup_fst (c : List ℚ) (topK : ℕ) :
    ((topPicks c topK).map Prod.fst).Nodup := by
  rw [topPicks_map_fst]
  exact List.nodup_reverse.mpr ((argsort_nodup c).sublist (pyTail_sublist topK (argsort c)))

/-- The picks are strictly descending: by score, and on exact score ties by
descending corpus index (the later record comes first). -/
theorem topPicks_pairwise (c : List ℚ) (topK : ℕ) :
    (topPicks c topK).Pairwise
      (fun p r => r.2 < p.2 ∨ (r.2 = p.2 ∧ r.1 < p.1)) := by
  unfold topPicks
  rw [List.pairwise_map]
  have hsorted : (pyTail topK (argsort c)).Pairwise (keyLe c) :=
    (argsort_sorted c).sublist (pyTail_sublist topK (argsort c))
  have hnodup : (pyTail topK (argsort c)).Nodup :=
    (argsort_nodup c).sublist (pyTail_sublist topK (argsort c))
  have hboth := hsorted.and hnodup
  rw [List.pairwise_reverse]
  apply hboth.imp
  intro i j hij
  rcases hij.1 with hlt | ⟨heq, hle⟩
  · exact Or.inl hlt
  · exact Or.inr ⟨heq, lt_of_le_of_ne hle hij.2⟩

/-- Selection optimality: any unselected index scores `keyLe`-below every
selected one. -/
theorem topPicks_selection {c : List ℚ} {topK : ℕ} {j : ℕ}
    (hj : j < c.length) (hout : ∀ p ∈ topPicks c topK, j ≠ p.1) :
    ∀ p ∈ topPicks c topK, c.getD j 0 < p.2 ∨ (c.getD j 0 = p.2 ∧ j < p.1) := by
  intro p hp
  have hidx := (topPicks_mem hp).1
  rw [List.mem_reverse] at hidx
  have hscore := (topPicks_mem hp).2
  rw [pyTail_eq_drop] at hidx
  set m := if topK = 0 then 0 else (argsort c).length - topK with hm
  have hjas : j ∈ argsort c := mem_argsort.mpr hj
  have hsplit : j ∈ (argsort c).take m ++ (argsort c).drop m := by
    rw [List.take_append_drop]
    exact hjas
  rcases List.mem_append.mp hsplit with hjt | hjd
  · have hsorted : ((argsort c).take m ++ (argsort c).drop m).Pairwise (keyLe c) := by
      rw [List.take_append_drop]
      exact argsort_sorted c
    have hkey : keyLe c j p.1 :=
      (List.pairwise_append.mp hsorted).2.2 j hjt p.1 hidx
    have hne : j ≠ p.1 := hout p hp
    rcases hkey with hlt | ⟨heq, hle⟩
    · exact Or.inl (hscore ▸ hlt)
    · exact Or.inr ⟨hscore ▸ heq, lt_of_le_of_ne hle hne⟩
  · exfalso
    have : (p.1 ∈ (pyTail topK (argsort c)).reverse → True) := fun _ => trivial
    have hmem : (j, c.getD j 0) ∈ topPicks c topK := by
      unfold topPicks
      apply List.mem_map_of_mem
      rw [List.mem_reverse, pyTail_eq_drop, ← hm]
      exact hjd
    exact hout _ hmem rfl

/-- Length of the selection when `top_k ≥ 1`. -/
theorem topPicks_length_of_ne_zero (c : List ℚ) {topK : ℕ} (hk : topK ≠ 0) :
    (topPicks c topK).length = min topK c.length := by
  unfold topPicks
  rw [List.length_map, List.length_reverse, pyTail_length_of_ne_zero _ _ hk,
    argsort_length]

/-- With `top_k` at least the corpus size (including the `top_k = 0` slice
quirk), the selection is all of the corpus, one pick per index. -/
theorem topPicks_fst_perm_of_ge (c : List ℚ) (topK : ℕ)
    (hk : c.length ≤ topK ∨ topK = 0) :
    List.Perm ((topPicks c topK).map Prod.fst) (List.range c.length) := by
  rw [topPicks_map_fst]
  have hfull : pyTail topK (argsort c) = argsort c := by
    rcases hk with hk | hk
    · exact pyTail_eq_of_le _ _ (by rw [argsort_length]; exact hk)
    · rw [hk]
      rfl
  rw [hfull]
  exact ((argsort c).reverse_perm).trans (argsort_perm c)

/-- The head of the selection (if any) is the global `argsort` maximum. -/
theorem topPicks_head_max {c : List ℚ} {topK : ℕ}
    (hne : topPicks c topK ≠ []) :
    ∀ j < c.length, keyLe c j ((topPicks c topK).getD 0 ⟨0, 0⟩).1 := by
  intro j hj
  have hplen : (pyTail topK (argsort c)) ≠ [] := by
    intro hcon
    apply hne
    unfold topPicks
    rw [hcon]
    rfl
  have hasne : argsort c ≠ [] := by
    intro hcon
    apply hplen
    unfold pyTail
    rw [hcon]
    split
    · rfl
    · exact List.drop_nil
  have hlast : (pyTail topK (argsort c)).getLast? = (argsort c).getLast? :=
    pyTail_getLast? topK (argsort c) hplen
  have hgl : (argsort c).getLast? = some ((argsort c).getLast hasne) :=
    List.getLast?_eq_getLast _ hasne
  have hhead : ((topPicks c topK).map Prod.fst).head? =
      some ((argsort c).getLast hasne) := by
    rw [topPicks_map_fst, List.head?_reverse, hlast, hgl]
  have hmax : keyLe c j ((argsort c).getLast hasne) :=
    sorted_getLast_max (argsort_sorted c) (mem_argsort.mpr hj) hasne
  have hfst : ((topPicks c topK).getD 0 ⟨0, 0⟩).1 = (argsort c).getLast hasne := by
    cases hps : topPicks c topK with
    | nil => exact absurd hps hne
    | cons p rest =>
      rw [hps] at hhead
      simp only [List.map_cons, List.head?_cons, Option.some.injEq] at hhead
      simp [hhead]
  rw [hfst]
  exact hmax

theorem topPicks_length_of_zero (c : List ℚ) : (topPicks c 0).length = c.length := by
  unfold topPicks pyTail
  rw [if_pos rfl, List.length_map, List.length_reverse, argsort_length]

theorem zeros_length (n : ℕ) : (zeros n).length = n := List.length_replicate n 0

theorem zeros_getD (n i : ℕ) : (zeros n).getD i 0 = 0 := by
  unfold zeros
  rw [List.getD_eq_getElem?_getD, List.getElem?_replicate]
  split <;> rfl

theorem mem_zeros {n : ℕ} {x : ℚ} (h : x ∈ zeros n) : x = 0 :=
  List.eq_of_mem_replicate h

theorem combinedOf_length (s : EngineState) (fitEnv : Option TfidfIdx)
    (q : String) (alpha : ℚ) :
    (combinedOf s fitEnv q alpha).length
      = min (tsOf s fitEnv q).length (esOf s fitEnv q).length := by
  unfold combinedOf
  rw [List.length_zipWith, normArr_length, normArr_length]

theorem combinedOf_getD (s : EngineState) (fitEnv : Option TfidfIdx)
    (q : String) (alpha : ℚ) {i : ℕ}
    (ht : i < (tsOf s fitEnv q).length) (he : i < (esOf s fitEnv q).length) :
    (combinedOf s fitEnv q alpha).getD i 0
      = effAlphaOf s fitEnv q alpha * (normArr (tsOf s fitEnv q)).getD i 0
        + (1 - effAlphaOf s fitEnv q alpha) * (normArr (esOf s fitEnv q)).getD i 0 := by
  unfold combinedOf
  exact zipWith_getD _ _ _ (by rw [normArr_length]; exact ht)
    (by rw [normArr_length]; exact he)

theorem stateAfter_of_none (s : EngineState) (fitEnv : Option TfidfIdx)
    (q : String) (h : s.tfidf = none) : stateAfter s fitEnv q = s := by
  unfold stateAfter
  rw [tfidf_scores_of_none s fitEnv q h]

theorem tsOf_of_none (s : EngineState) (fitEnv : Option TfidfIdx)
    (q : String) (h : s.tfidf = none) : tsOf s fitEnv q = zeros s.df.length := by
  unfold tsOf
  rw [tfidf_scores_of_none s fitEnv q h]

theorem effAlphaOf_of_tfidf_inactive (s : EngineState) (fitEnv : Option TfidfIdx)
    (q : String) (alpha : ℚ) (h : tActiveOf s fitEnv q = false) :
    effAlphaOf s fitEnv q alpha = 0 := by
  unfold effAlphaOf
  rw [if_pos h]

theorem effAlphaOf_of_both_active (s : EngineState) (fitEnv : Option TfidfIdx)
    (q : String) (alpha : ℚ) (ht : tActiveOf s fitEnv q = true)
    (he : eActiveOf s fitEnv q = true) :
    effAlphaOf s fitEnv q alpha = alpha := by
  unfold effAlphaOf
  rw [ht, he]
  rfl

theorem retrievePicks_blend (s : EngineState) (fitEnv : Option TfidfIdx)
    (q : String) (topK : ℕ) (alpha : ℚ)
    (h : ¬(tActiveOf s fitEnv q = false ∧ eActiveOf s fitEnv q = false)) :
    retrievePicks s fitEnv q topK alpha
      = topPicks (combinedOf s fitEnv q alpha) topK := by
  unfold retrievePicks
  rw [if_neg h]

theorem retrievePicks_fallback (s : EngineState) (fitEnv : Option TfidfIdx)
    (q : String) (topK : ℕ) (alpha : ℚ)
    (ht : tActiveOf s fitEnv q = false) (he : eActiveOf s fitEnv q = false) :
    retrievePicks s fitEnv q topK alpha
      = (List.range (min topK s.df.length)).map (fun i => (i, (0 : ℚ))) := by
  unfold retrievePicks
  rw [if_pos ⟨ht, he⟩, stateAfter_df]

theorem retrieve_fst (s : EngineState) (fitEnv : Option TfidfIdx)
    (q : String) (topK : ℕ) (alpha : ℚ) :
    (retrieve s fitEnv q topK alpha).1
      = (retrievePicks s fitEnv q topK alpha).map
          (fun p => mkRResult (s.df.getD p.1 default) p.2) := by
  unfold retrieve
  rw [stateAfter_df]

/-- If the similarity vector `_tfidf_scores` returned is not identically
zero, the lexical index survived the call (the vectorizer is non-`None`
afterwards). -/
theorem stateAfter_tfidf_isSome_of_nonzero (s : EngineState)
    (fitEnv : Option TfidfIdx) (q : String)
    (h : ¬ tsOf s fitEnv q = zeros s.df.length) :
    (stateAfter s fitEnv q).tfidf.isSome = true := by
  cases hst : (stateAfter s fitEnv q).tfidf with
  | none => exact absurd (tsOf_of_stateAfter_none s fitEnv q hst) h
  | some v => rfl

/-! ### Concrete fixtures for witnesses and counterexamples -/

def rowA : Row := ⟨"Tomato", "Late blight", "How to treat?", "Apply fungicide", "General", ""⟩

def rowB : Row := ⟨"Apple", "healthy", "Is my apple healthy?", "Yes", "General", ""⟩

/-- Engine over one row, both indexes disabled. -/
def engDead : EngineState := ⟨[rowA], true, none, none⟩

/-- Engine over one row, lexical disabled, embedding active. -/
def engEmb1 : EngineState := ⟨[rowA], true, none, some (fun _ => [1])⟩

/-- Engine over two rows, lexical disabled, embedding active with distinct
scores. -/
def engEmb2 : EngineState := ⟨[rowA, rowB], true, none, some (fun _ => [1, 0])⟩

/-! ### C7 -/

/-- C7: in `build_tfidf`, a missing DataFrame, an empty DataFrame, a missing
`Combined` column, or an all-blank cleaned corpus each skip the build (nothing
persisted), and a post-fit validation failure raises (nothing persisted). -/
theorem build_tfidf_some_eq (d : FrameModel) (fitOk : List String → Bool) :
    build_tfidf (some d) fitOk
      = if d.nrows = 0 then BuildOutcome.skipped
        else if d.hasCombined = false then BuildOutcome.skipped
        else if (d.combined.filter hasContent).length = 0 then BuildOutcome.skipped
        else if fitOk d.combined then BuildOutcome.persisted d.combined.length
        else BuildOutcome.raised := rfl

theorem build_tfidf_skip_and_raise (df : Option FrameModel) (fitOk : List String → Bool) :
    (df = none → build_tfidf df fitOk = BuildOutcome.skipped)
    ∧ (∀ d, df = some d → d.nrows = 0 → build_tfidf df fitOk = BuildOutcome.skipped)
    ∧ (∀ d, df = some d → d.hasCombined = false →
        build_tfidf df fitOk = BuildOutcome.skipped)
    ∧ (∀ d, df = some d → (d.combined.filter hasContent).length = 0 →
        build_tfidf df fitOk = BuildOutcome.skipped)
    ∧ (∀ d, df = some d → d.nrows ≠ 0 → d.hasCombined = true →
        (d.combined.filter hasContent).length ≠ 0 → fitOk d.combined = false →
        build_tfidf df fitOk = BuildOutcome.raised) := by
  refine ⟨?_, ?_, ?_, ?_, ?_⟩
  · rintro rfl
    rfl
  · rintro d rfl h0
    rw [build_tfidf_some_eq, if_pos h0]
  · rintro d rfl hc
    rw [build_tfidf_some_eq]
    by_cases h0 : d.nrows = 0
    · rw [if_pos h0]
    · rw [if_neg h0, if_pos hc]
  · rintro d rfl hclean
    rw [build_tfidf_some_eq]
    by_cases h0 : d.nrows = 0
    · rw [if_pos h0]
    · rw [if_neg h0]
      by_cases hc : d.hasCombined = false
      · rw [if_pos hc]
      · rw [if_neg hc, if_pos hclean]
  · rintro d rfl h0 hc hclean hfit
    rw [build_tfidf_some_eq]
    have hcf : ¬ (d.hasCombined = false) := by
      rw [hc]
      simp
    have hnot : ¬ (fitOk d.combined = true) := by
      rw [hfit]
      simp
    rw [if_neg h0, if_neg hcf, if_neg hclean, if_neg hnot]

theorem build_tfidf_skip_and_raise_witness :
    build_tfidf (some ⟨2, true, ["", "  "]⟩) (fun _ => true) = BuildOutcome.skipped
    ∧ build_tfidf (some ⟨1, true, ["late blight"]⟩) (fun _ => false)
        = BuildOutcome.raised :=
  ⟨(build_tfidf_skip_and_raise _ _).2.2.2.1 _ rfl (by decide),
    (build_tfidf_skip_and_raise _ _).2.2.2.2 _ rfl (by decide) rfl (by decide) rfl⟩

/-! ### C6 -/

/-- C6: the fit is run on the raw `corpus`, not on `corpus_clean` — with one
blank and one non-blank text the persisted document-term matrix has 2 rows,
while only 1 record has non-blank searchable text (the source's own comment
and log message promise the blank ones are filtered out). -/
theorem build_tfidf_fits_blank_rows :
    build_tfidf (some ⟨2, true, ["", "tomato late blight"]⟩) (fun _ => true)
      = BuildOutcome.persisted 2
    ∧ ((["", "tomato late blight"] : List String).filter hasContent).length = 1 := by
  constructor
  · decide
  · decide

/-! ### C3 -/

/-- C3 (amended): when both similarity vectors are identically zero (in
particular when both indexes are disabled), `retrieve` returns the first
`min(top_k, corpus size)` rows in corpus order with score 0.0; this is the
empty list when the corpus is empty, and non-empty whenever the corpus is
non-empty and `top_k ≥ 1`. -/
theorem retrieve_fallback_first_rows (s : EngineState) (fitEnv : Option TfidfIdx)
    (q : String) (topK : ℕ) (alpha : ℚ)
    (hts0 : ∀ x ∈ tsOf s fitEnv q, x = 0)
    (hes0 : ∀ x ∈ esOf s fitEnv q, x = 0) :
    (retrieve s fitEnv q topK alpha).1
      = (List.range (min topK s.df.length)).map
          (fun i => mkRResult (s.df.getD i default) 0)
    ∧ (s.df = [] → (retrieve s fitEnv q topK alpha).1 = [])
    ∧ (1 ≤ topK → s.df ≠ [] → (retrieve s fitEnv q topK alpha).1 ≠ []) := by
  have hta : tActiveOf s fitEnv q = false := by
    unfold tActiveOf
    have hany : (tsOf s fitEnv q).any (fun x => decide (x ≠ 0)) = false := by
      rw [List.any_eq_false]
      intro x hx
      rw [hts0 x hx]
      simp
    rw [hany, Bool.and_false]
  have hea : eActiveOf s fitEnv q = false := by
    unfold eActiveOf
    have hany : (esOf s fitEnv q).any (fun x => decide (x ≠ 0)) = false := by
      rw [List.any_eq_false]
      intro x hx
      rw [hes0 x hx]
      simp
    rw [hany, Bool.and_false]
  have hmain : (retrieve s fitEnv q topK alpha).1
      = (List.range (min topK s.df.length)).map
          (fun i => mkRResult (s.df.getD i default) 0) := by
    rw [retrieve_fst, retrievePicks_fallback s fitEnv q topK alpha hta hea,
      List.map_map]
    rfl
  refine ⟨hmain, ?_, ?_⟩
  · intro hdf
    rw [hmain, hdf]
    simp
  · intro h1 hne
    rw [hmain]
    intro hcon
    rw [List.map_eq_nil_iff] at hcon
    have hlen := congrArg List.length hcon
    rw [List.length_range] at hlen
    have hpos : 0 < s.df.length := List.length_pos.mpr hne
    simp only [List.length_nil] at hlen
    omega

/-- C3 counterexample: non-empty corpus, both indexes disabled, `top_k = 0`:
`retrieve` returns the empty list although the corpus is non-empty. -/
theorem retrieve_fallback_topk_zero :
    (retrieve engDead none "anything" 0 0).1 = [] ∧ engDead.df ≠ [] := by
  constructor
  · rfl
  · exact List.cons_ne_nil _ _

theorem retrieve_fallback_first_rows_witness :
    (retrieve engDead none "anything" 3 0).1
      = (List.range (min 3 engDead.df.length)).map
          (fun i => mkRResult (engDead.df.getD i default) 0)
    ∧ (retrieve engDead none "anything" 3 0).1 ≠ [] := by
  have hw1 : ∀ x ∈ tsOf engDead none "anything", x = 0 := by
    intro x hx
    exact mem_zeros hx
  have hw2 : ∀ x ∈ esOf engDead none "anything", x = 0 := by
    intro x hx
    exact mem_zeros hx
  exact ⟨(retrieve_fallback_first_rows engDead none "anything" 3 0 hw1 hw2).1,
    (retrieve_fallback_first_rows engDead none "anything" 3 0 hw1 hw2).2.2
      (by norm_num) (List.cons_ne_nil _ _)⟩

/-! ### C2 -/

/-- C2 (amended): for a non-empty corpus and `1 ≤ top_k ≤ corpus size`,
`retrieve` returns exactly `top_k` results, whose underlying corpus indices
are pairwise distinct and in range. -/
theorem retrieve_topk_exact (s : EngineState) (fitEnv : Option TfidfIdx)
    (q : String) (topK : ℕ) (alpha : ℚ)
    (hts : (tsOf s fitEnv q).length = s.df.length)
    (hes : (esOf s fitEnv q).length = s.df.length)
    (h1 : 1 ≤ topK) (h2 : topK ≤ s.df.length) :
    (retrieve s fitEnv q topK alpha).1.length = topK
    ∧ ((retrievePicks s fitEnv q topK alpha).map Prod.fst).Nodup
    ∧ (∀ p ∈ retrievePicks s fitEnv q topK alpha, p.1 < s.df.length) := by
  have hk0 : topK ≠ 0 := by omega
  by_cases hact : tActiveOf s fitEnv q = false ∧ eActiveOf s fitEnv q = false
  · rw [retrieve_fst, List.length_map,
      retrievePicks_fallback s fitEnv q topK alpha hact.1 hact.2]
    refine ⟨?_, ?_, ?_⟩
    · rw [List.length_map, List.length_range]
      omega
    · rw [List.map_map]
      have hid : (Prod.fst ∘ fun i : ℕ => (i, (0 : ℚ))) = id := rfl
      rw [hid, List.map_id]
      exact List.nodup_range _
    · intro p hp
      rcases List.mem_map.mp hp with ⟨i, hi, rfl⟩
      have := List.mem_range.mp hi
      omega
  · have hclen : (combinedOf s fitEnv q alpha).length = s.df.length := by
      rw [combinedOf_length, hts, hes, min_self]
    rw [retrieve_fst, List.length_map, retrievePicks_blend s fitEnv q topK alpha hact]
    refine ⟨?_, topPicks_nodup_fst _ _, ?_⟩
    · rw [topPicks_length_of_ne_zero _ hk0, hclen]
      omega
    · intro p hp
      have := topPicks_idx_lt hp
      rw [hclen] at this
      exact this

/-- C2 counterexample: one-row corpus with an active embedding signal and
`top_k = 0 ≤ 1`: the ranking branch's `[-0:]` slice selects the whole
corpus, so `retrieve` returns 1 result instead of 0. -/
theorem retrieve_topk_zero_counterexample :
    (retrieve engEmb1 none "q" 0 0).1.length = 1 ∧ engEmb1.df.length = 1 := by
  have hact : ¬(tActiveOf engEmb1 none "q" = false
      ∧ eActiveOf engEmb1 none "q" = false) := by
    decide
  constructor
  · rw [retrieve_fst, List.length_map, retrievePicks_blend engEmb1 none "q" 0 0 hact,
      topPicks_length_of_zero, combinedOf_length]
    rfl
  · rfl

theorem retrieve_topk_exact_witness :
    (1 ≤ 1 ∧ 1 ≤ engEmb2.df.length)
    ∧ (retrieve engEmb2 none "q" 1 0).1.length = 1 :=
  ⟨⟨le_refl 1, by decide⟩,
    (retrieve_topk_exact engEmb2 none "q" 1 0 rfl rfl (le_refl 1) (by decide)).1⟩

/-! ### C10 -/

/-- C10: with `top_k` strictly larger than the corpus size, `retrieve`
returns exactly one result per corpus record (corpus-size results, the index
multiset being exactly the corpus index range), on both the ranking branch
and the fallback branch. -/
theorem retrieve_topk_gt_corpus (s : EngineState) (fitEnv : Option TfidfIdx)
    (q : String) (topK : ℕ) (alpha : ℚ)
    (hts : (tsOf s fitEnv q).length = s.df.length)
    (hes : (esOf s fitEnv q).length = s.df.length)
    (hk : s.df.length < topK) :
    (retrieve s fitEnv q topK alpha).1.length = s.df.length
    ∧ List.Perm ((retrievePicks s fitEnv q topK alpha).map Prod.fst)
        (List.range s.df.length) := by
  by_cases hact : tActiveOf s fitEnv q = false ∧ eActiveOf s fitEnv q = false
  · rw [retrieve_fst, List.length_map,
      retrievePicks_fallback s fitEnv q topK alpha hact.1 hact.2]
    have hmin : min topK s.df.length = s.df.length := by omega
    constructor
    · rw [List.length_map, List.length_range]
      omega
    · rw [List.map_map]
      have hid : (Prod.fst ∘ fun i : ℕ => (i, (0 : ℚ))) = id := rfl
      rw [hid, List.map_id, hmin]
  · have hclen : (combinedOf s fitEnv q alpha).length = s.df.length := by
      rw [combinedOf_length, hts, hes, min_self]
    rw [retrieve_fst, List.length_map, retrievePicks_blend s fitEnv q topK alpha hact]
    have hperm := topPicks_fst_perm_of_ge (combinedOf s fitEnv q alpha)
      topK (Or.inl (by rw [hclen]; omega))
    rw [hclen] at hperm
    constructor
    · have hlen := hperm.length_eq
      rw [List.length_map, List.length_range] at hlen
      exact hlen
    · exact hperm

theorem retrieve_topk_gt_corpus_witness :
    engEmb2.df.length < 5
    ∧ (retrieve engEmb2 none "q" 5 0).1.length = engEmb2.df.length :=
  ⟨by decide, (retrieve_topk_gt_corpus engEmb2 none "q" 5 0 rfl rfl (by decide)).1⟩

/-! ### C4 -/

/-- C4: with the lexical index absent (`tfidf_vectorizer = None`, so
`_tfidf_scores` returns zeros without attempting a rebuild) and the semantic
signal active, the effective blend weight is 0 and every returned combined
score equals the min-max-normalized semantic similarity exactly. -/
theorem retrieve_embedding_only (s : EngineState) (fitEnv : Option TfidfIdx)
    (q : String) (topK : ℕ) (alpha : ℚ)
    (htnone : s.tfidf = none)
    (hesnz : (esOf s fitEnv q).any (fun x => decide (x ≠ 0)) = true) :
    effAlphaOf s fitEnv q alpha = 0
    ∧ ∀ p ∈ retrievePicks s fitEnv q topK alpha,
        p.2 = (normArr (esOf s fitEnv q)).getD p.1 0 := by
  have hsa := stateAfter_of_none s fitEnv q htnone
  have hta : tActiveOf s fitEnv q = false := by
    unfold tActiveOf
    rw [hsa, htnone]
    rfl
  have heff := effAlphaOf_of_tfidf_inactive s fitEnv q alpha hta
  have hea : eActiveOf s fitEnv q = true := by
    unfold eActiveOf
    rw [hesnz, Bool.and_true, hsa]
    cases hemb : s.embed with
    | none =>
      exfalso
      have h0 := esOf_of_embed_none s fitEnv q hemb
      rw [h0] at hesnz
      have hzero : (zeros s.df.length).any (fun x => decide (x ≠ 0)) = false := by
        rw [List.any_eq_false]
        intro x hx
        rw [mem_zeros hx]
        simp
      rw [hzero] at hesnz
      cases hesnz
    | some f => rfl
  have hact : ¬(tActiveOf s fitEnv q = false ∧ eActiveOf s fitEnv q = false) := by
    rw [hea]
    rintro ⟨-, hcon⟩
    cases hcon
  refine ⟨heff, ?_⟩
  intro p hp
  rw [retrievePicks_blend s fitEnv q topK alpha hact] at hp
  have hsc := topPicks_score hp
  have hlt := topPicks_idx_lt hp
  rw [combinedOf_length] at hlt
  have hlt_t : p.1 < (tsOf s fitEnv q).length := lt_of_lt_of_le hlt (min_le_left _ _)
  have hlt_e : p.1 < (esOf s fitEnv q).length := lt_of_lt_of_le hlt (min_le_right _ _)
  rw [hsc, combinedOf_getD s fitEnv q alpha hlt_t hlt_e, heff]
  ring

theorem retrieve_embedding_only_witness :
    (esOf engEmb2 none "q").any (fun x => decide (x ≠ 0)) = true
    ∧ effAlphaOf engEmb2 none "q" (45 / 100) = 0 :=
  ⟨by decide, (retrieve_embedding_only engEmb2 none "q" 3 (45 / 100) rfl (by decide)).1⟩

/-! ### C8 -/

/-- C8: when the loaded vectorizer is found unfitted at query time, the
rebuild path is consulted exactly once: a successful rebuild installs the
rebuilt index and scores with it; a failed rebuild yields the all-zero
similarity vector and permanently disables the lexical index — on the
resulting state every later `_tfidf_scores` call (any query, any fit
environment) returns zeros without changing the state again. -/
theorem tfidf_refit_once_or_disable (s : EngineState) (fitEnv : Option TfidfIdx)
    (q : String) {v : TfidfIdx} (hv : s.tfidf = some v) (hunfit : v.fitted = false) :
    (∀ v2, rebuildResult s fitEnv = some v2 →
      tfidf_scores s fitEnv q = (v2.sim q, { s with tfidf := some v2 }))
    ∧ (rebuildResult s fitEnv = none →
        tfidf_scores s fitEnv q = (zeros s.df.length, { s with tfidf := none })
        ∧ (∀ q2 fitEnv2, tfidf_scores { s with tfidf := none } fitEnv2 q2
            = (zeros s.df.length, { s with tfidf := none }))) := by
  constructor
  · intro v2 hr
    have heq := tfidf_scores_of_rebuild_ok s fitEnv q hv hunfit hr
    rw [heq]
    unfold rebuild_tfidf
    rw [hr]
  · intro hr
    constructor
    · have heq := tfidf_scores_of_rebuild_fail s fitEnv q hv hunfit hr
      rw [heq]
      unfold rebuild_tfidf
      rw [hr]
    · intro q2 fitEnv2
      exact tfidf_scores_of_none _ fitEnv2 q2 rfl

/-- An unfitted lexical index (as a loaded artifact would present it). -/
def idxUnfit : TfidfIdx := ⟨false, fun _ => [7]⟩

/-- Engine holding the unfitted index over a corpus without `Combined`. -/
def engUnfit : EngineState := ⟨[rowA], false, some idxUnfit, none⟩

theorem tfidf_refit_once_or_disable_witness :
    engUnfit.tfidf = some idxUnfit ∧ idxUnfit.fitted = false
    ∧ rebuildResult engUnfit none = none
    ∧ tfidf_scores engUnfit none "q" = (zeros 1, { engUnfit with tfidf := none })
    ∧ tfidf_scores { engUnfit with tfidf := none } (some ⟨true, fun _ => [9]⟩) "r"
        = (zeros 1, { engUnfit with tfidf := none }) := by
  refine ⟨rfl, rfl, rfl, ?_, ?_⟩
  · exact ((tfidf_refit_once_or_disable engUnfit none "q" rfl rfl).2 rfl).1
  · exact ((tfidf_refit_once_or_disable engUnfit none "q" rfl rfl).2 rfl).2 "r"
      (some ⟨true, fun _ => [9]⟩)

/-! ### C1 -/

/-- C1 (amended): on the ranking branch, `retrieve` returns the selected
records in descending order of combined score, with exact score ties broken
by *reverse* corpus order (among tied records the one appearing later in the
corpus is ranked first); every unselected record scores strictly below every
selected one, or ties it with a smaller corpus index; each returned score is
that record's combined score; and the returned rows are the picked indices
resolved against the DataFrame. -/
theorem retrieve_ranking_order (s : EngineState) (fitEnv : Option TfidfIdx)
    (q : String) (topK : ℕ) (alpha : ℚ)
    (hact : ¬(tActiveOf s fitEnv q = false ∧ eActiveOf s fitEnv q = false)) :
    ((retrievePicks s fitEnv q topK alpha).Pairwise
      (fun p r => r.2 < p.2 ∨ (r.2 = p.2 ∧ r.1 < p.1)))
    ∧ (∀ p ∈ retrievePicks s fitEnv q topK alpha,
        p.2 = (combinedOf s fitEnv q alpha).getD p.1 0)
    ∧ (∀ j < (combinedOf s fitEnv q alpha).length,
        (∀ p ∈ retrievePicks s fitEnv q topK alpha, j ≠ p.1) →
        ∀ p ∈ retrievePicks s fitEnv q topK alpha,
          (combinedOf s fitEnv q alpha).getD j 0 < p.2
          ∨ ((combinedOf s fitEnv q alpha).getD j 0 = p.2 ∧ j < p.1))
    ∧ (retrieve s fitEnv q topK alpha).1
      = (retrievePicks s fitEnv q topK alpha).map
          (fun p => mkRResult (s.df.getD p.1 default) p.2) := by
  rw [retrievePicks_blend s fitEnv q topK alpha hact]
  exact ⟨topPicks_pairwise _ _,
    fun p hp => topPicks_score hp,
    fun j hj hout p hp => topPicks_selection hj hout p hp,
    (retrieve_fst s fitEnv q topK alpha).trans
      (by rw [retrievePicks_blend s fitEnv q topK alpha hact])⟩

/-- Engine over two rows, lexical disabled, embedding active with tied
similarity scores. -/
def engTie : EngineState := ⟨[rowA, rowB], true, none, some (fun _ => [1, 1])⟩

/-- C1 counterexample: two records with exactly tied combined scores and
`top_k = 1`: `retrieve` selects and returns the *second* record (corpus
index 1), not the first-seen one as the claim's stable-sort reading
demands. -/
theorem retrieve_tie_counterexample :
    (retrievePicks engTie none "q" 1 0).map Prod.fst = [1]
    ∧ (combinedOf engTie none "q" 0).getD 0 0 = (combinedOf engTie none "q" 0).getD 1 0
    ∧ (retrieve engTie none "q" 1 0).1 = [mkRResult rowB 0] := by
  have hact : ¬(tActiveOf engTie none "q" = false
      ∧ eActiveOf engTie none "q" = false) := by
    decide
  have heff : effAlphaOf engTie none "q" 0 = 0 := by decide
  have hts' : tsOf engTie none "q" = [0, 0] := rfl
  have hes' : esOf engTie none "q" = [1, 1] := rfl
  have hc : combinedOf engTie none "q" 0 = [0, 0] := by
    unfold combinedOf
    rw [heff, hts', hes']
    norm_num [normArr, minD, maxD, eps, List.zipWith]
  refine ⟨?_, ?_, ?_⟩
  · rw [retrievePicks_blend engTie none "q" 1 0 hact, hc]
    decide
  · rw [hc]
    rfl
  · rw [retrieve_fst, retrievePicks_blend engTie none "q" 1 0 hact, hc]
    decide

theorem retrieve_ranking_order_witness :
    ¬(tActiveOf engEmb2 none "q" = false ∧ eActiveOf engEmb2 none "q" = false)
    ∧ (retrievePicks engEmb2 none "q" 2 0).Pairwise
        (fun p r => r.2 < p.2 ∨ (r.2 = p.2 ∧ r.1 < p.1)) :=
  ⟨by decide, (retrieve_ranking_order engEmb2 none "q" 2 0 (by decide)).1⟩

/-! ### C5 support: the blended score vector with an exact-match record -/

/-- The combined vector for a fixed blend weight (what `combinedOf` is once
`effective_alpha` is resolved). -/
def blendVec (alpha : ℚ) (t e : List ℚ) : List ℚ :=
  List.zipWith (fun a b => alpha * a + (1 - alpha) * b) (normArr t) (normArr e)

theorem blendVec_getD {alpha : ℚ} {t e : List ℚ} {i : ℕ}
    (hit : i < t.length) (hie : i < e.length) :
    (blendVec alpha t e).getD i 0
      = alpha * (normArr t).getD i 0 + (1 - alpha) * (normArr e).getD i 0 := by
  unfold blendVec
  exact zipWith_getD _ _ _ (by rw [normArr_length]; exact hit)
    (by rw [normArr_length]; exact hie)

theorem normArr_getD_le {l : List ℚ} {i j : ℕ} (hi : i < l.length)
    (hj : j < l.length) (h : l.getD i 0 ≤ l.getD j 0) :
    (normArr l).getD i 0 ≤ (normArr l).getD j 0 := by
  have hne : l ≠ [] := by
    intro hcon
    rw [hcon] at hi
    simp at hi
  have hD := normDenom_pos hne
  rw [normArr_getD hi, normArr_getD hj]
  rw [div_le_div_iff₀ hD hD]
  exact mul_le_mul_of_nonneg_right (by linarith) hD.le

/-- If the blended score at `i1` is at least the blended score of a record
`i0` whose two similarities are both 1 (the maximum either signal attains),
then `i1`'s similarities are also both exactly 1. -/
theorem blendVec_max_forces {alpha : ℚ} {t e : List ℚ} {i0 i1 : ℕ}
    (hi0t : i0 < t.length) (hi0e : i0 < e.length)
    (hi1t : i1 < t.length) (hi1e : i1 < e.length)
    (ht1 : t.getD i0 0 = 1) (he1 : e.getD i0 0 = 1)
    (htb : ∀ x ∈ t, x ≤ 1) (heb : ∀ x ∈ e, x ≤ 1)
    (ha0 : 0 < alpha) (ha1 : alpha < 1)
    (hge : (blendVec alpha t e).getD i0 0 ≤ (blendVec alpha t e).getD i1 0) :
    t.getD i1 0 = 1 ∧ e.getD i1 0 = 1 := by
  have htne : t ≠ [] := by
    intro hcon
    rw [hcon] at hi0t
    simp at hi0t
  have hene : e ≠ [] := by
    intro hcon
    rw [hcon] at hi0e
    simp at hi0e
  have hDt := normDenom_pos htne
  have hDe := normDenom_pos hene
  rw [blendVec_getD hi0t hi0e, blendVec_getD hi1t hi1e] at hge
  have hnt : (normArr t).getD i1 0 ≤ (normArr t).getD i0 0 :=
    normArr_getD_le hi1t hi0t (by rw [ht1]; exact htb _ (getD_mem hi1t))
  have hne_ : (normArr e).getD i1 0 ≤ (normArr e).getD i0 0 :=
    normArr_getD_le hi1e hi0e (by rw [he1]; exact heb _ (getD_mem hi1e))
  have hmul1 : (1 - alpha) * (normArr e).getD i1 0
      ≤ (1 - alpha) * (normArr e).getD i0 0 :=
    mul_le_mul_of_nonneg_left hne_ (by linarith)
  have hnt_ge : alpha * (normArr t).getD i0 0 ≤ alpha * (normArr t).getD i1 0 := by
    linarith
  have hnt0_le : (normArr t).getD i0 0 ≤ (normArr t).getD i1 0 :=
    le_of_mul_le_mul_left hnt_ge ha0
  have hnt_eq : (normArr t).getD i1 0 = (normArr t).getD i0 0 :=
    le_antisymm hnt hnt0_le
  have hmul2 : alpha * (normArr t).getD i1 0 ≤ alpha * (normArr t).getD i0 0 := by
    rw [hnt_eq]
  have hne_ge : (1 - alpha) * (normArr e).getD i0 0
      ≤ (1 - alpha) * (normArr e).getD i1 0 := by
    linarith
  have hne0_le : (normArr e).getD i0 0 ≤ (normArr e).getD i1 0 :=
    le_of_mul_le_mul_left hne_ge (by linarith)
  have hne_eq : (normArr e).getD i1 0 = (normArr e).getD i0 0 :=
    le_antisymm hne_ hne0_le
  constructor
  · have h := hnt_eq
    rw [normArr_getD hi1t, normArr_getD hi0t, ht1] at h
    rw [div_eq_div_iff (ne_of_gt hDt) (ne_of_gt hDt)] at h
    have hc := mul_right_cancel₀ (ne_of_gt hDt) h
    linarith
  · have h := hne_eq
    rw [normArr_getD hi1e, normArr_getD hi0e, he1] at h
    rw [div_eq_div_iff (ne_of_gt hDe) (ne_of_gt hDe)] at h
    have hc := mul_right_cancel₀ (ne_of_gt hDe) h
    linarith

/-! ### C5 -/

/-- C5: with both signals active (here: both report similarity exactly 1
for a record `i0` whose indexed text matches the query — a cosine similarity
of 1 — while every similarity is at most 1), `retrieve` with a proper blend
weight `0 < alpha < 1` and `top_k ≥ 1` places a maximum-scoring record at
position 0; that record's two similarities are both exactly 1 (i.e. it is an
exact-match record), its combined score is the maximum combined score over
all records, and its reported score is its combined score. -/
theorem retrieve_exact_match (s : EngineState) (fitEnv : Option TfidfIdx)
    (q : String) (topK : ℕ) (alpha : ℚ) (i0 : ℕ)
    (hts : (tsOf s fitEnv q).length = s.df.length)
    (hes : (esOf s fitEnv q).length = s.df.length)
    (hi0 : i0 < s.df.length)
    (ht1 : (tsOf s fitEnv q).getD i0 0 = 1)
    (he1 : (esOf s fitEnv q).getD i0 0 = 1)
    (htb : ∀ x ∈ tsOf s fitEnv q, x ≤ 1)
    (heb : ∀ x ∈ esOf s fitEnv q, x ≤ 1)
    (ha0 : 0 < alpha) (ha1 : alpha < 1) (htop : 1 ≤ topK) :
    retrievePicks s fitEnv q topK alpha ≠ []
    ∧ ((retrievePicks s fitEnv q topK alpha).getD 0 (0, 0)).1 < s.df.length
    ∧ (tsOf s fitEnv q).getD
        ((retrievePicks s fitEnv q topK alpha).getD 0 (0, 0)).1 0 = 1
    ∧ (esOf s fitEnv q).getD
        ((retrievePicks s fitEnv q topK alpha).getD 0 (0, 0)).1 0 = 1
    ∧ (∀ j < s.df.length, (combinedOf s fitEnv q alpha).getD j 0
        ≤ ((retrievePicks s fitEnv q topK alpha).getD 0 (0, 0)).2)
    ∧ ((retrievePicks s fitEnv q topK alpha).getD 0 (0, 0)).2
        = (combinedOf s fitEnv q alpha).getD
            ((retrievePicks s fitEnv q topK alpha).getD 0 (0, 0)).1 0 := by
  have hi0t : i0 < (tsOf s fitEnv q).length := by
    rw [hts]
    exact hi0
  have hi0e : i0 < (esOf s fitEnv q).length := by
    rw [hes]
    exact hi0
  have hta : tActiveOf s fitEnv q = true := by
    unfold tActiveOf
    have hnz : ¬ tsOf s fitEnv q = zeros s.df.length := by
      intro hcon
      rw [hcon, zeros_getD] at ht1
      norm_num at ht1
    rw [stateAfter_tfidf_isSome_of_nonzero s fitEnv q hnz, Bool.true_and,
      List.any_eq_true]
    refine ⟨(tsOf s fitEnv q).getD i0 0, getD_mem hi0t, ?_⟩
    rw [ht1]
    rfl
  have hee : (stateAfter s fitEnv q).embed.isSome = true := by
    cases hemb : s.embed with
    | none =>
      exfalso
      have h0 := esOf_of_embed_none s fitEnv q hemb
      rw [h0, zeros_getD] at he1
      norm_num at he1
    | some f =>
      rw [stateAfter_embed, hemb]
      rfl
  have hea : eActiveOf s fitEnv q = true := by
    unfold eActiveOf
    rw [hee, Bool.true_and, List.any_eq_true]
    refine ⟨(esOf s fitEnv q).getD i0 0, getD_mem hi0e, ?_⟩
    rw [he1]
    rfl
  have heff := effAlphaOf_of_both_active s fitEnv q alpha hta hea
  have hact : ¬(tActiveOf s fitEnv q = false ∧ eActiveOf s fitEnv q = false) := by
    rw [hta]
    rintro ⟨hcon, -⟩
    cases hcon
  have hcb : combinedOf s fitEnv q alpha
      = blendVec alpha (tsOf s fitEnv q) (esOf s fitEnv q) := by
    unfold combinedOf blendVec
    rw [heff]
  have hclen : (combinedOf s fitEnv q alpha).length = s.df.length := by
    rw [combinedOf_length, hts, hes, min_self]
  have hpicks : retrievePicks s fitEnv q topK alpha
      = topPicks (combinedOf s fitEnv q alpha) topK :=
    retrievePicks_blend s fitEnv q topK alpha hact
  have hne : retrievePicks s fitEnv q topK alpha ≠ [] := by
    rw [hpicks]
    intro hcon
    have hl := congrArg List.length hcon
    rw [topPicks_length_of_ne_zero _ (by omega : topK ≠ 0), hclen] at hl
    simp only [List.length_nil] at hl
    omega
  have hnetp : topPicks (combinedOf s fitEnv q alpha) topK ≠ [] := by
    rw [← hpicks]
    exact hne
  have hhead := topPicks_head_max hnetp
  have hgetD : (retrievePicks s fitEnv q topK alpha).getD 0 (0, 0)
      = (topPicks (combinedOf s fitEnv q alpha) topK).getD 0 (0, 0) := by
    rw [hpicks]
  have hlen_pos : 0 < (topPicks (combinedOf s fitEnv q alpha) topK).length :=
    List.length_pos.mpr hnetp
  have hp0mem : (topPicks (combinedOf s fitEnv q alpha) topK).getD 0 (0, 0)
      ∈ topPicks (combinedOf s fitEnv q alpha) topK := by
    rw [List.getD_eq_getElem?_getD, List.getElem?_eq_getElem hlen_pos]
    exact List.getElem_mem hlen_pos
  have hp0lt : ((topPicks (combinedOf s fitEnv q alpha) topK).getD 0 (0, 0)).1
      < s.df.length := by
    have := topPicks_idx_lt hp0mem
    rw [hclen] at this
    exact this
  have hp0sc := topPicks_score hp0mem
  have hp0lt_t : ((topPicks (combinedOf s fitEnv q alpha) topK).getD 0 (0, 0)).1
      < (tsOf s fitEnv q).length := by
    rw [hts]
    exact hp0lt
  have hp0lt_e : ((topPicks (combinedOf s fitEnv q alpha) topK).getD 0 (0, 0)).1
      < (esOf s fitEnv q).length := by
    rw [hes]
    exact hp0lt
  have hmax : ∀ j < s.df.length, (combinedOf s fitEnv q alpha).getD j 0
      ≤ (combinedOf s fitEnv q alpha).getD
          ((topPicks (combinedOf s fitEnv q alpha) topK).getD 0 (0, 0)).1 0 := by
    intro j hj
    have hkey := hhead j (by rw [hclen]; exact hj)
    rcases hkey with hlt | ⟨heq, -⟩
    · exact hlt.le
    · exact heq.le
  have hge : (combinedOf s fitEnv q alpha).getD i0 0
      ≤ (combinedOf s fitEnv q alpha).getD
          ((topPicks (combinedOf s fitEnv q alpha) topK).getD 0 (0, 0)).1 0 :=
    hmax i0 hi0
  have hforced := blendVec_max_forces hi0t hi0e hp0lt_t hp0lt_e ht1 he1 htb heb
    ha0 ha1 (by rw [← hcb]; exact hge)
  rw [hgetD]
  refine ⟨by rw [hpicks]; exact hnetp, hp0lt, hforced.1, hforced.2, ?_, hp0sc⟩
  intro j hj
  rw [hp0sc]
  exact hmax j hj

/-- A fitted lexical index whose similarity to the fixed query is 1 for
record 0 and 0 for record 1. -/
def idxFit : TfidfIdx := ⟨true, fun _ => [1, 0]⟩

/-- Engine over two rows with both indexes active. -/
def engBoth : EngineState := ⟨[rowA, rowB], true, some idxFit, some (fun _ => [1, 0])⟩

theorem retrieve_exact_match_witness :
    ((0 : ℚ) < 1 / 2 ∧ (1 : ℚ) / 2 < 1)
    ∧ (tsOf engBoth none "How to treat?").getD 0 0 = 1
    ∧ (esOf engBoth none "How to treat?").getD 0 0 = 1
    ∧ retrievePicks engBoth none "How to treat?" 1 (1 / 2) ≠ [] :=
  ⟨⟨by norm_num, by norm_num⟩, rfl, rfl,
    (retrieve_exact_match engBoth none "How to treat?" 1 (1 / 2) 0 rfl rfl
      (by decide) rfl rfl (by decide) (by decide)
      (by norm_num) (by norm_num) (by norm_num)).1⟩

/-! ### C9 support: the calibration selection -/

theorem pyTail_ne_nil {l : List α} (hl : l ≠ []) (k : ℕ) : pyTail k l ≠ [] := by
  unfold pyTail
  by_cases hk : k = 0
  · rw [if_pos hk]
    exact hl
  · rw [if_neg hk]
    intro hcon
    have hlen := congrArg List.length hcon
    rw [List.length_drop, List.length_nil] at hlen
    have hlp : 0 < l.length := List.length_pos.mpr hl
    omega

/-- Under strict dominance, the `argsort` maximum is the dominant index. -/
theorem argsort_getLast_of_dominant {raw : List ℚ} {i0 : ℕ}
    (hi0 : i0 < raw.length)
    (hdom : ∀ j < raw.length, j ≠ i0 → raw.getD j 0 < raw.getD i0 0)
    (hne : argsort raw ≠ []) :
    (argsort raw).getLast hne = i0 := by
  have hgmem : (argsort raw).getLast hne ∈ argsort raw := List.getLast_mem hne
  have hglt : (argsort raw).getLast hne < raw.length := mem_argsort.mp hgmem
  by_contra hne2
  have hlt := hdom _ hglt hne2
  have hkey : keyLe raw i0 ((argsort raw).getLast hne) :=
    sorted_getLast_max (argsort_sorted raw) (mem_argsort.mpr hi0) hne
  rcases hkey with h | ⟨h, -⟩
  · exact absurd h (not_lt.mpr hlt.le)
  · rw [h] at hlt
    exact lt_irrefl _ hlt

/-- The head of the calibration selection is the `argsort` maximum. -/
theorem calibTopIndices_head_eq_getLast {raw : List ℚ} {topK : ℕ}
    (hasne : argsort raw ≠ []) :
    (calibTopIndices raw topK).getD 0 0 = (argsort raw).getLast hasne := by
  unfold calibTopIndices
  have hplen : pyTail topK (argsort raw) ≠ [] := pyTail_ne_nil hasne topK
  have hlast : (pyTail topK (argsort raw)).getLast? = (argsort raw).getLast? :=
    pyTail_getLast? topK (argsort raw) hplen
  have hgl : (argsort raw).getLast? = some ((argsort raw).getLast hasne) :=
    List.getLast?_eq_getLast _ hasne
  have hhead : ((pyTail topK (argsort raw)).reverse).head?
      = some ((argsort raw).getLast hasne) := by
    rw [List.head?_reverse, hlast, hgl]
  cases hps : (pyTail topK (argsort raw)).reverse with
  | nil =>
    rw [hps] at hhead
    cases hhead
  | cons x rest =>
    rw [hps] at hhead
    simp only [List.head?_cons, Option.some.injEq] at hhead
    rw [← hhead]
    rfl

/-- The selected probabilities and the dropped probabilities together sum to
the whole distribution. -/
theorem calibTopProbs_sum_split (raw : List ℚ) (topK : ℕ) :
    (calibTopProbs raw topK).sum
      + (((argsort raw).take
          (if topK = 0 then 0 else (argsort raw).length - topK)).map
          (fun i => raw.getD i 0)).sum
      = raw.sum := by
  unfold calibTopProbs calibTopIndices
  rw [pyTail_eq_drop, List.map_reverse, List.sum_reverse, add_comm,
    ← List.sum_append, ← List.map_append, List.take_append_drop]
  exact sum_map_getD_perm (argsort_perm raw)

theorem sum_map_getD_pos {raw : List ℚ} {l : List ℕ}
    (hpos : ∀ x ∈ raw, 0 < x) (hsub : ∀ i ∈ l, i < raw.length) (hne : l ≠ []) :
    0 < (l.map (fun i => raw.getD i 0)).sum := by
  apply sum_pos_of_forall_pos
  · intro hcon
    rw [List.map_eq_nil_iff] at hcon
    exact hne hcon
  · intro x hx
    rcases List.mem_map.mp hx with ⟨i, hi, rfl⟩
    exact hpos _ (getD_mem (hsub i hi))

theorem getD_zero_map_div {l : List ℚ} (S : ℚ) (hl : 0 < l.length) :
    (l.map (fun p => p / S)).getD 0 0 = l.getD 0 0 / S := by
  have hml : 0 < (l.map (fun p => p / S)).length := by
    rw [List.length_map]
    exact hl
  rw [List.getD_eq_getElem?_getD, List.getElem?_eq_getElem hml,
    List.getD_eq_getElem?_getD, List.getElem?_eq_getElem hl]
  simp

theorem calibTopProbs_getD_zero {raw : List ℚ} {topK : ℕ}
    (hne : calibTopIndices raw topK ≠ []) :
    (calibTopProbs raw topK).getD 0 0
      = raw.getD ((calibTopIndices raw topK).getD 0 0) 0 := by
  unfold calibTopProbs
  cases hc : calibTopIndices raw topK with
  | nil => exact absurd hc hne
  | cons i rest => rfl

/-! ### C9 -/

/-- C9 (amended): for a strictly positive probability vector summing to 1
with a strictly dominant entry `i0`: whenever `1 ≤ top_k < number of
labels`, the calibrated top-1 is `i0` and its calibrated confidence is
*strictly greater* than its raw probability; and when `top_k` equals the
number of labels the re-normalization is a no-op (the returned confidences
are exactly the raw probabilities of the returned indices). -/
theorem calibrate_dominant_top1 (raw : List ℚ) (topK i0 : ℕ)
    (hi0 : i0 < raw.length)
    (hpos : ∀ x ∈ raw, 0 < x)
    (hsum : raw.sum = 1)
    (hdom : ∀ j < raw.length, j ≠ i0 → raw.getD j 0 < raw.getD i0 0) :
    (1 ≤ topK → topK < raw.length →
      (calibrate_confidence raw topK).1.getD 0 0 = i0
      ∧ raw.getD i0 0 < (calibrate_confidence raw topK).2.getD 0 0)
    ∧ (topK = raw.length →
        (calibrate_confidence raw topK).2
          = (calibrate_confidence raw topK).1.map (fun i => raw.getD i 0)) := by
  have hrawne : raw ≠ [] := by
    intro hcon
    rw [hcon] at hi0
    simp at hi0
  have hasne : argsort raw ≠ [] := argsort_ne_nil hrawne
  have hidxne : calibTopIndices raw topK ≠ [] := by
    unfold calibTopIndices
    intro hcon
    rw [List.reverse_eq_nil_iff] at hcon
    exact pyTail_ne_nil hasne topK hcon
  have hhead0 : (calibTopIndices raw topK).getD 0 0 = (argsort raw).getLast hasne :=
    calibTopIndices_head_eq_getLast hasne
  have hheadi0 : (calibTopIndices raw topK).getD 0 0 = i0 := by
    rw [hhead0]
    exact argsort_getLast_of_dominant hi0 hdom hasne
  have hsubidx : ∀ i ∈ calibTopIndices raw topK, i < raw.length := by
    intro i hi
    unfold calibTopIndices at hi
    rw [List.mem_reverse] at hi
    exact mem_argsort.mp ((pyTail_sublist topK (argsort raw)).mem hi)
  have hSpos : 0 < (calibTopProbs raw topK).sum := by
    unfold calibTopProbs
    exact sum_map_getD_pos hpos hsubidx hidxne
  constructor
  · intro h1 h2
    have hk0 : topK ≠ 0 := by omega
    -- the dropped prefix is nonempty, so the selected sum is < 1
    have htake_len : ((argsort raw).take
        (if topK = 0 then 0 else (argsort raw).length - topK)).length
        = (argsort raw).length - topK := by
      rw [if_neg hk0, List.length_take]
      omega
    have htake_ne : ((argsort raw).take
        (if topK = 0 then 0 else (argsort raw).length - topK)) ≠ [] := by
      intro hcon
      have hl := congrArg List.length hcon
      rw [htake_len, List.length_nil, argsort_length] at hl
      omega
    have htake_sub : ∀ i ∈ (argsort raw).take
        (if topK = 0 then 0 else (argsort raw).length - topK), i < raw.length := by
      intro i hi
      exact mem_argsort.mp ((List.take_sublist _ _).mem hi)
    have hTpos := sum_map_getD_pos hpos htake_sub htake_ne
    have hsplit := calibTopProbs_sum_split raw topK
    have hSlt1 : (calibTopProbs raw topK).sum < 1 := by
      rw [hsum] at hsplit
      linarith
    have hcal : calibrate_confidence raw topK
        = (calibTopIndices raw topK,
          (calibTopProbs raw topK).map
            (fun p => p / (calibTopProbs raw topK).sum)) := by
      unfold calibrate_confidence
      rw [if_pos hSpos]
    have hpl : 0 < (calibTopProbs raw topK).length := by
      unfold calibTopProbs
      rw [List.length_map]
      exact List.length_pos.mpr hidxne
    constructor
    · rw [hcal]
      exact hheadi0
    · rw [hcal]
      show raw.getD i0 0 < ((calibTopProbs raw topK).map
        (fun p => p / (calibTopProbs raw topK).sum)).getD 0 0
      rw [getD_zero_map_div _ hpl, calibTopProbs_getD_zero hidxne, hheadi0]
      rw [lt_div_iff₀ hSpos]
      exact mul_lt_of_lt_one_right (hpos _ (getD_mem hi0)) hSlt1
  · intro hkn
    subst hkn
    have hcal : calibrate_confidence raw raw.length
        = (calibTopIndices raw raw.length,
          (calibTopProbs raw raw.length).map
            (fun p => p / (calibTopProbs raw raw.length).sum)) := by
      unfold calibrate_confidence
      rw [if_pos hSpos]
    have hk0 : raw.length ≠ 0 := by
      intro hcon
      rw [hcon] at hi0
      omega
    have hSeq : (calibTopProbs raw raw.length).sum = 1 := by
      have hsplit := calibTopProbs_sum_split raw raw.length
      rw [if_neg hk0, argsort_length, Nat.sub_self, List.take_zero] at hsplit
      simp only [List.map_nil, List.sum_nil, add_zero] at hsplit
      rw [hsum] at hsplit
      exact hsplit
    rw [hcal, hSeq]
    have hdiv1 : (fun p : ℚ => p / 1) = id := by
      funext p
      simp
    rw [hdiv1, List.map_id]
    rfl

/-- A concrete softmax-style distribution: label 1 strictly dominates. -/
def c9raw : List ℚ := [1 / 4, 3 / 4]

/-- C9 counterexample: with `top_k = 2` equal to the number of labels, the
top-k re-normalization divides by 1 and the calibrated top-1 confidence
*equals* the dominant raw probability — it is not strictly greater. -/
theorem calibrate_noop_counterexample :
    (0 < c9raw.getD 0 0 ∧ 0 < c9raw.getD 1 0)
    ∧ c9raw.sum = 1
    ∧ c9raw.getD 0 0 < c9raw.getD 1 0
    ∧ c9raw.length = 2
    ∧ (calibrate_confidence c9raw 2).2.getD 0 0 = c9raw.getD 1 0 := by
  have h0 : c9raw.getD 0 0 = 1 / 4 := rfl
  have h1 : c9raw.getD 1 0 = 3 / 4 := rfl
  have hkey : keyLe c9raw 0 1 := by
    left
    rw [h0, h1]
    norm_num
  have hargs : argsort c9raw = [0, 1] := by
    show List.orderedInsert (keyLe c9raw) 0 [1] = [0, 1]
    show (if keyLe c9raw 0 1 then 0 :: 1 :: [] else
      1 :: List.orderedInsert (keyLe c9raw) 0 []) = [0, 1]
    rw [if_pos hkey]
  have hidx : calibTopIndices c9raw 2 = [1, 0] := by
    unfold calibTopIndices
    rw [hargs]
    rfl
  have hprobs : calibTopProbs c9raw 2 = [3 / 4, 1 / 4] := by
    unfold calibTopProbs
    rw [hidx]
    rfl
  have hS : (calibTopProbs c9raw 2).sum = 1 := by
    rw [hprobs]
    norm_num [List.sum_cons, List.sum_nil]
  refine ⟨⟨?_, ?_⟩, ?_, ?_, rfl, ?_⟩
  · rw [h0]
    norm_num
  · rw [h1]
    norm_num
  · norm_num [c9raw, List.sum_cons, List.sum_nil]
  · rw [h0, h1]
    norm_num
  · unfold calibrate_confidence
    rw [hS]
    rw [if_pos (by norm_num : (0 : ℚ) < 1)]
    show ((calibTopProbs c9raw 2).map (fun p => p / 1)).getD 0 0 = c9raw.getD 1 0
    rw [hprobs, h1]
    simp only [List.map_cons, List.map_nil, List.getD_cons_zero]
    norm_num

theorem calibrate_dominant_top1_witness :
    (1 ≤ 1 ∧ 1 < c9raw.length)
    ∧ ((calibrate_confidence c9raw 1).1.getD 0 0 = 1
      ∧ c9raw.getD 1 0 < (calibrate_confidence c9raw 1).2.getD 0 0) :=
  ⟨⟨le_refl 1, by decide⟩,
    (calibrate_dominant_top1 c9raw 1 1 (by decide)
      (by
        intro x hx
        rcases List.mem_cons.mp hx with rfl | hx'
        · norm_num
        · rcases List.mem_cons.mp hx' with rfl | hx''
          · norm_num
          · cases hx'')
      (by norm_num [c9raw, List.sum_cons, List.sum_nil])
      (by
        intro j hj hne
        have hj2 : j < 2 := hj
        have hj0 : j = 0 := by omega
        subst hj0
        show c9raw.getD 0 0 < c9raw.getD 1 0
        rw [show c9raw.getD 0 0 = 1 / 4 from rfl,
          show c9raw.getD 1 0 = 3 / 4 from rfl]
        norm_num)).1 (le_refl 1) (by decide)⟩

end ChatBotAI
